import Mathlib

set_option maxHeartbeats 1000000

/-!
Verification of the audiometry XML parsing core (src/audiometry.py).

The development shallowly embeds the two functions the specification calls
the "core": `dictify` (the XML normalizer, lines 16-37 of the source) and
the threshold-extraction body of `parse_audiometry` (lines 61-79).  Python
dictionaries, lists and strings are modelled by the inductive type `DVal`;
the Python exceptions the code can raise are modelled by `PyErr`; fallible
code returns `Except PyErr`.
-/

/-- The Python exceptions the audiometry core can raise.  `keyError` and
`indexError` play the role of the spec's StructureMismatch; `valueError`
(raised by `int(...)` on a non-numeric string) is the spec's
ValueFormatError; `attributeError` is the crash of calling `.append` on a
value that is not a list; `typeError` models bad subscripts and unhashable
dictionary keys. -/
inductive PyErr where
  | keyError
  | indexError
  | typeError
  | valueError
  | attributeError
  deriving DecidableEq

/-- A dynamic Python value as it occurs in the normalized mapping produced
by `dictify`: a string (attribute value or text content), a dictionary
with string keys (insertion-ordered association list), or a list. -/
inductive DVal where
  | str : String → DVal
  | node : List (String × DVal) → DVal
  | seq : List DVal → DVal

/-- A normalized node: a Python dict with string keys, modelled as an
insertion-ordered association list (as Python dicts are). -/
abbrev DNode := List (String × DVal)

/-- Lookup in an insertion-ordered association list (Python `d[k]` read). -/
def alookup {α β : Type} [DecidableEq α] : List (α × β) → α → Option β
  | [], _ => none
  | (k2, v) :: rest, k => if k2 = k then some v else alookup rest k

/-- Write `d[k] = v` in an insertion-ordered association list with Python
dict semantics: an existing key keeps its position and gets the new value,
a new key is appended at the end. -/
def aset {α β : Type} [DecidableEq α] : List (α × β) → α → β → List (α × β)
  | [], k, v => [(k, v)]
  | (k2, v2) :: rest, k, v =>
      if k2 = k then (k, v) :: rest else (k2, v2) :: aset rest k v

/-- Subscripting a `DVal` with a string key, as Python does: dict lookup
(KeyError when absent), TypeError on lists and strings. -/
def DVal.getKey : DVal → String → Except PyErr DVal
  | .node n, k =>
      match alookup n k with
      | some v => .ok v
      | none => .error .keyError
  | .seq _, _ => .error .typeError
  | .str _, _ => .error .typeError

/-- Subscripting a `DVal` with a nonnegative integer, as Python does:
list indexing (IndexError when out of range), one-character string for a
string, KeyError for a dict (the integer is not among its string keys). -/
def DVal.getIdx : DVal → Nat → Except PyErr DVal
  | .seq l, i =>
      match l.get? i with
      | some v => .ok v
      | none => .error .indexError
  | .node _, _ => .error .keyError
  | .str s, i =>
      match s.data.get? i with
      | some c => .ok (.str (String.singleton c))
      | none => .error .indexError

/-- Python `len` on the values the core meets. -/
def DVal.len : DVal → Nat
  | .str s => s.length
  | .node n => n.length
  | .seq l => l.length

/-- Iterating a Python value: a list yields its elements, a dict its keys,
a string its characters. -/
def DVal.toIter : DVal → List DVal
  | .seq l => l
  | .node n => n.map (fun kv => DVal.str kv.1)
  | .str s => s.data.map (fun c => DVal.str (String.singleton c))

/-- Using a `DVal` as a dictionary key (`audiogram[earside]`): strings are
hashable, dicts and lists raise TypeError. -/
def DVal.asKey : DVal → Except PyErr String
  | .str s => .ok s
  | _ => .error .typeError

/-- Python whitespace stripped by `int(...)` (ASCII fragment). -/
def pySpace (c : Char) : Bool :=
  c = ' ' || c = '\t' || c = '\n' || c = '\r' || c = '\x0b' || c = '\x0c'

/-- Strip leading and trailing whitespace. -/
def stripWs (cs : List Char) : List Char :=
  ((cs.dropWhile pySpace).reverse.dropWhile pySpace).reverse

/-- Tail of the digit grammar accepted by Python `int`: digits optionally
separated by single underscores. -/
def digitsTail : List Char → Bool
  | [] => true
  | '_' :: [] => false
  | '_' :: c :: rest => c.isDigit && digitsTail rest
  | c :: rest => c.isDigit && digitsTail rest

/-- A nonempty digit string in the grammar accepted by Python `int` (after
sign and whitespace): it must start with a digit and underscores may only
separate digits. -/
def pyDigits : List Char → Bool
  | [] => false
  | c :: rest => c.isDigit && digitsTail rest

/-- Numeric value of a digit string, ignoring underscores. -/
def digitsVal (cs : List Char) : Nat :=
  (cs.filter (fun c => c != '_')).foldl (fun a c => a * 10 + (c.toNat - 48)) 0

/-- Python `int(s)` on a string: strips whitespace, accepts an optional
sign followed by digits (with underscore separators), raises ValueError
otherwise. -/
def pyInt (s : String) : Except PyErr Int :=
  match stripWs s.data with
  | '+' :: rest =>
      if pyDigits rest then .ok (digitsVal rest : Int) else .error .valueError
  | '-' :: rest =>
      if pyDigits rest then .ok (-(digitsVal rest : Int)) else .error .valueError
  | rest =>
      if pyDigits rest then .ok (digitsVal rest : Int) else .error .valueError

/-- Python `int(x)` on an arbitrary value: parse a string, TypeError on a
dict or list. -/
def DVal.toInt : DVal → Except PyErr Int
  | .str s => pyInt s
  | _ => .error .typeError

/-- The integer `pyInt` parses, with a default for the error case (used
only to state results about inputs already known to parse). -/
def pyIntD (s : String) : Int :=
  match pyInt s with
  | .ok n => n
  | .error _ => 0

/-- Python `x == 'Tone'`: true exactly for the string value "Tone";
values of other types compare unequal without error. -/
def isToneStr (v : DVal) : Bool :=
  match v with
  | .str s => s == "Tone"
  | _ => false

/-- The audiogram result: ear-side label to (frequency to threshold),
both layers Python dicts in insertion order. -/
abbrev Audiogram := List (String × List (Int × Int))

/-- The chain `measured_data[s]['Tone'][0]` that the source re-evaluates
at every use (lines 68, 71, 75, 76). -/
def mdTone0 (md : DVal) (s : Nat) : Except PyErr DVal := do
  (← (← md.getIdx s).getKey "Tone").getIdx 0

/-- One iteration of the inner loop of `parse_audiometry` (lines 75-77):
resolve the tone point, `int`-parse `Frequency` and `IntensityUT`, and
store `audiogram[earside][freq] = threshold`. -/
def toneStep (md : DVal) (s : Nat) (earside : String) (t : Nat)
    (aud : Audiogram) : Except PyErr Audiogram := do
  let tonePoints ← (← mdTone0 md s).getKey "TonePoint"
  let pt ← tonePoints.getIdx t
  let freq ← (← (← (← pt.getKey "Frequency").getIdx 0).getKey "_text").toInt
  let threshold ← (← (← (← pt.getKey "IntensityUT").getIdx 0).getKey "_text").toInt
  match alookup aud earside with
  | some inner => .ok (aset aud earside (aset inner freq threshold))
  | none => .error .keyError

/-- The inner loop `for tone in np.arange(nfreqs)` (line 74). -/
def toneLoop (md : DVal) (s : Nat) (earside : String) :
    List Nat → Audiogram → Except PyErr Audiogram
  | [], aud => .ok aud
  | t :: ts, aud => toneStep md s earside t aud >>= toneLoop md s earside ts

/-- One iteration of the measured-data loop (lines 68-77): read the ear
side, initialize `audiogram[earside] = {}`, then run the tone loop over
`range(len(...['TonePoint']))`. -/
def measStep (md : DVal) (s : Nat) (aud : Audiogram) :
    Except PyErr Audiogram := do
  let earsideV ← (← (← (← mdTone0 md s).getKey "Earside").getIdx 0).getKey "_text"
  let earside ← earsideV.asKey
  let aud1 := aset aud earside []
  let tonePoints ← (← mdTone0 md s).getKey "TonePoint"
  toneLoop md s earside (List.range tonePoints.len) aud1

/-- The loop `for s in np.arange(len(measured_data))` (line 67). -/
def measLoop (md : DVal) : List Nat → Audiogram → Except PyErr Audiogram
  | [], aud => .ok aud
  | s :: ss, aud => measStep md s aud >>= measLoop md ss

/-- The chain `test['TestName'][0]['_text']` (line 63). -/
def tnChain (test : DVal) : Except PyErr DVal := do
  (← (← test.getKey "TestName").getIdx 0).getKey "_text"

/-- One iteration of the test loop (lines 62-77): skip the test unless its
name is `'Tone'`, otherwise descend `Data -> RecordedData -> Measured` and
run the measured-data loop. -/
def testStep (test : DVal) (aud : Audiogram) : Except PyErr Audiogram := do
  let tn ← tnChain test
  if isToneStr tn then
    let md ← (← (← (← (← test.getKey "Data").getIdx 0).getKey "RecordedData").getIdx 0).getKey "Measured"
    measLoop md (List.range md.len) aud
  else
    .ok aud

/-- The loop `for test in d['SaData']['Session'][0]['Test']` (line 61). -/
def testLoop : List DVal → Audiogram → Except PyErr Audiogram
  | [], aud => .ok aud
  | test :: rest, aud => testStep test aud >>= testLoop rest

/-- The threshold extractor: the body of `parse_audiometry` after the file
has been parsed and dictified (lines 54-79).  The input is the normalized
document (the dictionary returned by `dictify`); the result is the
`audiogram` dictionary, or the exception the Python code would raise. -/
def extract_thresholds (d : DVal) : Except PyErr Audiogram := do
  let tests ← (← (← (← d.getKey "SaData").getKey "Session").getIdx 0).getKey "Test"
  testLoop tests.toIter []

/-- A normalized leaf holding only text content. -/
def textNode (s : String) : DVal := DVal.node [("_text", DVal.str s)]

/-- A normalized `TonePoint` with the given `Frequency` and `IntensityUT`
texts. -/
def mkTonePoint (ft it : String) : DVal :=
  DVal.node [("Frequency", DVal.seq [textNode ft]),
             ("IntensityUT", DVal.seq [textNode it])]

/-- The node `...['Tone'][0]` of a normalized measured block. -/
def measInner (ear : String) (pts : List (String × String)) : DVal :=
  DVal.node [("Earside", DVal.seq [textNode ear]),
             ("TonePoint", DVal.seq (pts.map (fun p => mkTonePoint p.1 p.2)))]

/-- A normalized per-ear measured block: ear-side label and tone points. -/
def mkMeasured (ear : String) (pts : List (String × String)) : DVal :=
  DVal.node [("Tone", DVal.seq [measInner ear pts])]

/-- A normalized test named `Tone` whose `Measured` entry is the given
value. -/
def mkToneTestD (md : DVal) : DVal :=
  DVal.node [("TestName", DVal.seq [textNode "Tone"]),
    ("Data", DVal.seq [DVal.node [("RecordedData", DVal.seq [DVal.node
      [("Measured", md)]])]])]

/-- A normalized test named `Tone` with the given measured blocks. -/
def mkToneTest (ms : List DVal) : DVal := mkToneTestD (DVal.seq ms)

/-- A normalized audiometry document with the given test list. -/
def mkDoc (tests : List DVal) : DVal :=
  DVal.node [("SaData", DVal.node [("Session", DVal.seq [DVal.node
    [("Test", DVal.seq tests)]])])]

/-- A node of a parsed XML element tree, as `xml.etree.ElementTree`
presents it: a tag (possibly of the form `\x7buri\x7dlocal` for a
namespaced element), an attribute mapping, optional text content, and the
child elements in document order. -/
structure Element where
  tag : String
  attrib : List (String × String)
  text : Option String
  children : List Element

/-- Index of the last occurrence of `c` in a character list. -/
def lastIdxOf (c : Char) : List Char → Option Nat
  | [] => none
  | a :: rest =>
      match lastIdxOf c rest with
      | some i => some (i + 1)
      | none => if a = c then some 0 else none

/-- One fuel-indexed pass of `re.sub('{.*}', '', s)`: scanning left to
right, a match starts at a literal `\x7b`, greedily spans as far as the
last `\x7d` on the same line (`.` does not match a newline), is deleted,
and scanning resumes after it.  The fuel only bounds the recursion; with
fuel at least the length of the list it never runs out, since each step
consumes at least one character. -/
def subAllF : Nat → List Char → List Char
  | _, [] => []
  | 0, cs => cs
  | n + 1, a :: rest =>
      if a = '{' then
        match lastIdxOf '}' (rest.takeWhile (fun c => c ≠ '\n')) with
        | some j => subAllF n (rest.drop (j + 1))
        | none => a :: subAllF n rest
      else a :: subAllF n rest

/-- `re.sub('{.*}', '', s)`, the namespace-stripping applied to tags at
lines 28 and 33 of the source. -/
def stripTag (s : String) : String := String.mk (subAllF s.data.length s.data)

/-- Truthiness of `r.text` in `if r.text:` (line 30): a string that is
present and nonempty. -/
def truthyText : Option String → Bool
  | some t => !(t == "")
  | none => false

/-- Lines 29-31 of `dictify`: `d = copy(r.attrib)` followed by
`d["_text"] = r.text` when the text is truthy. -/
def baseDict (attrib : List (String × String)) (text : Option String) : DNode :=
  let d0 := attrib.foldl (fun d kv => aset d kv.1 (DVal.str kv.2)) []
  if truthyText text then aset d0 "_text" (DVal.str (text.getD "")) else d0

/-- Lines 34-36: the value `d[x.tag]` must support `.append`.  An absent
key is first bound to `[]`; an existing list is appended to; a string or
dict raises AttributeError (`.append` is looked up before the recursive
call is evaluated). -/
def pyAppendSlot : Option DVal → Except PyErr (List DVal)
  | none => .ok []
  | some (DVal.seq l) => .ok l
  | some (DVal.str _) => .error .attributeError
  | some (DVal.node _) => .error .attributeError

/-- The child loop of `dictify` (lines 32-36), threading the dictionary
`d` through the children.  For each child `x`: its tag is rewritten in
place to its stripped form (line 33), the normalized child is appended to
`d[x.tag]`, and the child subtree is processed recursively.  Returns the
final dictionary together with the post-state of the child list (the
in-place tag mutations). -/
def dictifyKids (d : DNode) : List Element → Except PyErr (DNode × List Element)
  | [] => .ok (d, [])
  | ⟨xtag, xattrib, xtext, xchildren⟩ :: xs =>
      let t := stripTag xtag
      match pyAppendSlot (alookup d t) with
      | .error er => .error er
      | .ok l =>
          match dictifyKids (baseDict xattrib xtext) xchildren with
          | .error er => .error er
          | .ok (xd, xcs) =>
              match dictifyKids (aset d t (DVal.seq (l ++ [DVal.node xd]))) xs with
              | .error er => .error er
              | .ok (d2, cs2) => .ok (d2, Element.mk t xattrib xtext xcs :: cs2)

/-- `dictify(r, root=True)` (lines 16-37): a single-key mapping from the
stripped root tag to the inner dictionary of the root.  The root's own
tag is read but not mutated; the returned `Element` is the post-state of
the input tree. -/
def dictify (e : Element) : Except PyErr (DNode × Element) :=
  match dictifyKids (baseDict e.attrib e.text) e.children with
  | .error er => .error er
  | .ok (d, cs) =>
      .ok ([(stripTag e.tag, DVal.node d)], Element.mk e.tag e.attrib e.text cs)

/-- The inner dictionary `dictify(x, root=False)` computes for an element
(defaulting to empty if the computation raises); the element's own tag is
not consulted. -/
def dnodeOf (e : Element) : DNode :=
  match dictifyKids (baseDict e.attrib e.text) e.children with
  | .ok pr => pr.1
  | .error _ => []

/-- No element of the list (recursively) has a child whose stripped tag
collides with one of the element's attribute names, or with `_text` when
the element has truthy text.  This is exactly the condition under which
`dictify` cannot reach its AttributeError crash. -/
def noClashKids (attrib : List (String × String)) (text : Option String) :
    List Element → Bool
  | [] => true
  | ⟨xtag, xattrib, xtext, xchildren⟩ :: xs =>
      attrib.all (fun kv => !(kv.1 == stripTag xtag)) &&
      (!truthyText text || !(stripTag xtag == "_text")) &&
      noClashKids xattrib xtext xchildren &&
      noClashKids attrib text xs

/-- `noClashKids` at the root of a tree. -/
def noClash (e : Element) : Bool := noClashKids e.attrib e.text e.children

/-- The tag mutation `dictify` performs on a child list: every element's
tag is stripped exactly once, recursively; attributes, text and structure
are untouched. -/
def stripKids : List Element → List Element
  | [] => []
  | ⟨xtag, xattrib, xtext, xchildren⟩ :: xs =>
      Element.mk (stripTag xtag) xattrib xtext (stripKids xchildren) :: stripKids xs

/-- One update of the per-ear threshold dictionary by a tone point given
as (frequency text, intensity text):
`audiogram[earside][freq] = threshold` for inputs that parse. -/
def pstep (inner : List (Int × Int)) (p : String × String) : List (Int × Int) :=
  aset inner (pyIntD p.1) (pyIntD p.2)

/-- The net effect of one measured block (ear label, tone point texts) on
the audiogram: `audiogram[earside] = {}` followed by the tone-point
updates. -/
def mstep (aud : Audiogram) (b : String × List (String × String)) : Audiogram :=
  aset aud b.1 (b.2.foldl pstep [])

/-- The `Measured` list built from measured blocks given as (ear label,
tone point texts). -/
def mseq (ms : List (String × List (String × String))) : DVal :=
  DVal.seq (ms.map (fun b => mkMeasured b.1 b.2))

/-- How the child loop of `dictify` transforms the binding of one key:
an existing list is extended by the normalized children carrying that
stripped tag (in document order), a string or dict binding survives only
if no child carries the tag, and an unbound key becomes the sequence of
those children, or stays absent when there are none. -/
def collapseVal (old : Option DVal) (f : List Element) : Option DVal :=
  match old, f with
  | some (DVal.seq l), f =>
      some (DVal.seq (l ++ f.map (fun c => DVal.node (dnodeOf c))))
  | some v, _ => some v
  | none, [] => none
  | none, f => some (DVal.seq (f.map (fun c => DVal.node (dnodeOf c))))

@[simp] theorem ok_bind {α β : Type} (a : α) (f : α → Except PyErr β) :
    (Except.ok a : Except PyErr α) >>= f = f a := rfl

@[simp] theorem error_bind {α β : Type} (e : PyErr) (f : α → Except PyErr β) :
    (Except.error e : Except PyErr α) >>= f = .error e := rfl

theorem bind_assoc_except {α β γ : Type} (x : Except PyErr α)
    (f : α → Except PyErr β) (g : β → Except PyErr γ) :
    (x >>= f) >>= g = x >>= fun a => f a >>= g := by
  cases x <;> rfl

@[simp] theorem alookup_aset_self {α β : Type} [DecidableEq α]
    (m : List (α × β)) (k : α) (v : β) : alookup (aset m k v) k = some v := by
  induction m with
  | nil => simp [aset, alookup]
  | cons kv rest ih =>
      by_cases h : kv.1 = k
      · simp [aset, alookup, h]
      · simp [aset, alookup, h, ih]

theorem alookup_aset_ne {α β : Type} [DecidableEq α]
    (m : List (α × β)) (k2 k : α) (v : β) (h : k2 ≠ k) :
    alookup (aset m k2 v) k = alookup m k := by
  induction m with
  | nil => simp [aset, alookup, h]
  | cons kv rest ih =>
      by_cases h2 : kv.1 = k2
      · simp [aset, alookup, h2, h]
      · simp [aset, alookup, h2, ih]

theorem aset_aset {α β : Type} [DecidableEq α]
    (m : List (α × β)) (k : α) (v w : β) : aset (aset m k v) k w = aset m k w := by
  induction m with
  | nil => simp [aset]
  | cons kv rest ih =>
      by_cases h : kv.1 = k
      · simp [aset, h]
      · simp [aset, h, ih]

theorem aset_of_alookup {α β : Type} [DecidableEq α]
    (m : List (α × β)) (k : α) (v : β) (h : alookup m k = some v) :
    aset m k v = m := by
  induction m with
  | nil => simp [alookup] at h
  | cons kv rest ih =>
      obtain ⟨k1, v1⟩ := kv
      by_cases h2 : k1 = k
      · simp [alookup, h2] at h
        simp [aset, h2, h]
      · simp [alookup, h2] at h
        simp [aset, h2, ih h]

theorem mem_keys_aset {α β : Type} [DecidableEq α]
    (m : List (α × β)) (k k2 : α) (v : β)
    (h : k2 ∈ (aset m k v).map Prod.fst) : k2 ∈ m.map Prod.fst ∨ k2 = k := by
  induction m with
  | nil =>
      simp [aset] at h
      simp [h]
  | cons kv rest ih =>
      obtain ⟨k1, v1⟩ := kv
      by_cases h2 : k1 = k
      · simp [aset, h2] at h
        rcases h with h | h
        · exact Or.inr h
        · exact Or.inl (by simp [h])
      · simp [aset, h2] at h
        rcases h with h | h
        · exact Or.inl (by simp [h])
        · rcases ih (by simpa using h) with h3 | h3
          · exact Or.inl (by simp [h3])
          · exact Or.inr h3

theorem nodup_keys_aset {α β : Type} [DecidableEq α]
    (m : List (α × β)) (k : α) (v : β) (h : (m.map Prod.fst).Nodup) :
    ((aset m k v).map Prod.fst).Nodup := by
  induction m with
  | nil => simp [aset]
  | cons kv rest ih =>
      obtain ⟨k1, v1⟩ := kv
      by_cases h2 : k1 = k
      · subst h2
        simpa [aset] using h
      · simp only [aset, if_neg h2, List.map_cons, List.nodup_cons] at h ⊢
        refine ⟨fun hmem => ?_, ih h.2⟩
        rcases mem_keys_aset rest k k1 v hmem with h3 | h3
        · exact h.1 h3
        · exact h2 h3

theorem getLast?_cons_or {α : Type} (a : α) (l : List α) :
    (a :: l).getLast? = l.getLast?.or (some a) := by
  induction l generalizing a with
  | nil => rfl
  | cons b t ih =>
      rw [List.getLast?_cons_cons, ih b]
      cases t.getLast? <;> simp [Option.or]

/-- Last-write-wins for a left fold of dictionary writes: looking up `f`
after folding the pairs of `ips` into `m` returns the second component of
the last pair whose first component is `f`, falling back to the previous
binding. -/
theorem alookup_foldl_aset (ips : List (Int × Int)) (m : List (Int × Int)) (f : Int) :
    alookup (ips.foldl (fun acc q => aset acc q.1 q.2) m) f =
      (((ips.filter (fun q => q.1 == f)).getLast?).map Prod.snd).or (alookup m f) := by
  induction ips generalizing m with
  | nil => simp [List.filter]
  | cons q rest ih =>
      rw [List.foldl_cons, ih]
      by_cases h : q.1 = f
      · subst h
        rw [alookup_aset_self]
        simp only [List.filter_cons, beq_self_eq_true, if_true]
        rw [getLast?_cons_or]
        cases hrest : ((rest.filter (fun p => p.1 == q.1)).getLast?) with
        | none => simp [hrest, Option.or]
        | some p => simp [hrest, Option.or]
      · have hb : (q.1 == f) = false := by simp [h]
        simp only [List.filter_cons, hb, Bool.false_eq_true, if_false]
        rw [alookup_aset_ne m q.1 f q.2 h]

theorem getElem?_of_drop {α : Type} (l : List α) (j : Nat) (q : α) (rest : List α)
    (h : l.drop j = q :: rest) : l[j]? = some q := by
  induction l generalizing j with
  | nil => simp at h
  | cons a t ih =>
      cases j with
      | zero => simpa using congrArg List.head? h
      | succ j2 =>
          rw [List.getElem?_cons_succ]
          exact ih j2 (by simpa using h)

theorem drop_succ_of_drop {α : Type} (l : List α) (j : Nat) (q : α) (rest : List α)
    (h : l.drop j = q :: rest) : l.drop (j + 1) = rest := by
  rw [← List.drop_drop, h]
  rfl

theorem extract_mkDoc (ts : List DVal) :
    extract_thresholds (mkDoc ts) = testLoop ts [] := rfl

theorem pyInt_eq_of_isOk (s : String) (h : (pyInt s).isOk = true) :
    pyInt s = .ok (pyIntD s) := by
  cases h2 : pyInt s with
  | ok n => simp [pyIntD, h2]
  | error e => rw [h2] at h; simp [Except.isOk, Except.toBool] at h

theorem mdTone0_mseq (ms : List (String × List (String × String))) (s : Nat)
    (b : String × List (String × String)) (hb : ms[s]? = some b) :
    mdTone0 (mseq ms) s = .ok (measInner b.1 b.2) := by
  simp [mdTone0, mseq, DVal.getIdx, List.getElem?_map, hb, mkMeasured,
        DVal.getKey, alookup]

theorem toneStep_ok_family (ms : List (String × List (String × String)))
    (s : Nat) (b : String × List (String × String)) (ek : String) (t : Nat)
    (p : String × String) (aud : Audiogram) (inner : List (Int × Int))
    (hb : ms[s]? = some b) (hp : b.2[t]? = some p)
    (hf : (pyInt p.1).isOk = true) (hi : (pyInt p.2).isOk = true)
    (ha : alookup aud ek = some inner) :
    toneStep (mseq ms) s ek t aud = .ok (aset aud ek (pstep inner p)) := by
  simp [toneStep, mdTone0_mseq ms s b hb, measInner, DVal.getKey, alookup,
        DVal.getIdx, List.getElem?_map, hp, mkTonePoint, textNode, DVal.toInt,
        pyInt_eq_of_isOk p.1 hf, pyInt_eq_of_isOk p.2 hi, ha, pstep]

theorem toneStep_err_family (ms : List (String × List (String × String)))
    (s : Nat) (b : String × List (String × String)) (ek : String) (t : Nat)
    (p : String × String) (aud : Audiogram)
    (hb : ms[s]? = some b) (hp : b.2[t]? = some p)
    (hbad : pyInt p.1 = .error .valueError ∨
      ((pyInt p.1).isOk = true ∧ pyInt p.2 = .error .valueError)) :
    toneStep (mseq ms) s ek t aud = .error .valueError := by
  rcases hbad with hbad | ⟨hok, hbad⟩
  · simp [toneStep, mdTone0_mseq ms s b hb, measInner, DVal.getKey, alookup,
          DVal.getIdx, List.getElem?_map, hp, mkTonePoint, textNode,
          DVal.toInt, hbad]
  · simp [toneStep, mdTone0_mseq ms s b hb, measInner, DVal.getKey, alookup,
          DVal.getIdx, List.getElem?_map, hp, mkTonePoint, textNode,
          DVal.toInt, pyInt_eq_of_isOk p.1 hok, hbad]

theorem toneLoop_append (md : DVal) (s : Nat) (ek : String) (xs ys : List Nat)
    (aud : Audiogram) :
    toneLoop md s ek (xs ++ ys) aud
      = toneLoop md s ek xs aud >>= toneLoop md s ek ys := by
  induction xs generalizing aud with
  | nil => simp [toneLoop]
  | cons x xt ih =>
      simp only [List.cons_append, toneLoop]
      cases toneStep md s ek x aud with
      | error e => simp
      | ok a => simp [ih a]

theorem toneLoop_ok_family (ms : List (String × List (String × String)))
    (s : Nat) (b : String × List (String × String)) (ek : String)
    (hb : ms[s]? = some b) :
    ∀ (qs tl : List (String × String)) (j : Nat) (aud : Audiogram)
      (inner : List (Int × Int)),
      b.2.drop j = qs ++ tl →
      (∀ p ∈ qs, (pyInt p.1).isOk = true ∧ (pyInt p.2).isOk = true) →
      alookup aud ek = some inner →
      toneLoop (mseq ms) s ek (List.range' j qs.length) aud
        = .ok (aset aud ek (qs.foldl pstep inner)) := by
  intro qs
  induction qs with
  | nil =>
      intro tl j aud inner hdrop hgood ha
      simp [toneLoop, List.foldl_nil, aset_of_alookup aud ek inner ha]
  | cons p qt ih =>
      intro tl j aud inner hdrop hgood ha
      have hp : b.2[j]? = some p := getElem?_of_drop _ _ _ _ (by simpa using hdrop)
      have hstep := toneStep_ok_family ms s b ek j p aud inner hb hp
        (hgood p (by simp)).1 (hgood p (by simp)).2 ha
      have hnext : b.2.drop (j + 1) = qt ++ tl :=
        drop_succ_of_drop _ _ _ _ (by simpa using hdrop)
      have hrec := ih tl (j + 1) (aset aud ek (pstep inner p)) (pstep inner p)
        hnext (fun p2 hp2 => hgood p2 (by simp [hp2]))
        (alookup_aset_self aud ek (pstep inner p))
      simp only [List.length_cons, List.range'_succ, toneLoop, hstep, ok_bind]
      rw [hrec, aset_aset]
      rfl

theorem toneLoop_err_family (ms : List (String × List (String × String)))
    (s : Nat) (b : String × List (String × String)) (ek : String) (j : Nat)
    (bf bi : String) (rest2 : List (String × String))
    (hb : ms[s]? = some b) (hdrop : b.2.drop j = (bf, bi) :: rest2)
    (hbad : pyInt bf = .error .valueError ∨
      ((pyInt bf).isOk = true ∧ pyInt bi = .error .valueError)) :
    ∀ (js : List Nat) (aud : Audiogram),
      toneLoop (mseq ms) s ek (j :: js) aud = .error .valueError := by
  intro js aud
  have hp : b.2[j]? = some (bf, bi) := getElem?_of_drop _ _ _ _ hdrop
  simp [toneLoop, toneStep_err_family ms s b ek j (bf, bi) aud hb hp hbad]

theorem range'_split (a m : Nat) :
    List.range' 0 (a + m) = List.range' 0 a ++ List.range' a m := by
  have h := List.range'_append 0 a m 1
  simp only [Nat.one_mul, Nat.zero_add] at h
  rw [Nat.add_comm a m]
  exact h.symm

theorem measStep_ok_family (ms : List (String × List (String × String)))
    (s : Nat) (b : String × List (String × String)) (aud : Audiogram)
    (hb : ms[s]? = some b)
    (hgood : ∀ p ∈ b.2, (pyInt p.1).isOk = true ∧ (pyInt p.2).isOk = true) :
    measStep (mseq ms) s aud = .ok (mstep aud b) := by
  have htone := toneLoop_ok_family ms s b b.1 hb b.2 [] 0 (aset aud b.1 []) []
    (by simp) hgood (alookup_aset_self aud b.1 [])
  simp only [List.range_eq_range'] at htone ⊢
  simp [measStep, mdTone0_mseq ms s b hb, measInner, DVal.getKey, alookup,
        DVal.getIdx, textNode, DVal.asKey, DVal.len, List.range_eq_range',
        htone, aset_aset, mstep]

theorem measStep_err_family (ms : List (String × List (String × String)))
    (s : Nat) (ear : String) (gpts : List (String × String)) (bf bi : String)
    (rpts : List (String × String)) (aud : Audiogram)
    (hb : ms[s]? = some (ear, gpts ++ (bf, bi) :: rpts))
    (hgood : ∀ p ∈ gpts, (pyInt p.1).isOk = true ∧ (pyInt p.2).isOk = true)
    (hbad : pyInt bf = .error .valueError ∨
      ((pyInt bf).isOk = true ∧ pyInt bi = .error .valueError)) :
    measStep (mseq ms) s aud = .error .valueError := by
  have hlen : (gpts ++ (bf, bi) :: rpts).length
      = gpts.length + (rpts.length + 1) := by
    simp [List.length_append, Nat.add_comm]
  have hsplit : List.range' 0 (gpts.length + (rpts.length + 1))
      = List.range' 0 gpts.length ++ List.range' gpts.length (rpts.length + 1) :=
    range'_split _ _
  have hpre := toneLoop_ok_family ms s (ear, gpts ++ (bf, bi) :: rpts) ear hb
    gpts ((bf, bi) :: rpts) 0 (aset aud ear []) [] (by simp) hgood
    (alookup_aset_self aud ear [])
  have herr := toneLoop_err_family ms s (ear, gpts ++ (bf, bi) :: rpts) ear
    gpts.length bf bi rpts hb (by simpa using List.drop_left gpts ((bf, bi) :: rpts))
    hbad (List.range' (gpts.length + 1) rpts.length)
    (aset (aset aud ear []) ear (gpts.foldl pstep []))
  simp only [List.range'_succ] at hsplit
  simp [measStep, mdTone0_mseq ms s (ear, gpts ++ (bf, bi) :: rpts) hb,
        measInner, DVal.getKey, alookup, DVal.getIdx, textNode, DVal.asKey,
        DVal.len, List.range_eq_range', hlen, hsplit,
        toneLoop_append, hpre, herr]

theorem measLoop_ok_family (ms : List (String × List (String × String))) :
    ∀ (bs tl : List (String × List (String × String))) (j : Nat)
      (aud : Audiogram),
      ms.drop j = bs ++ tl →
      (∀ b ∈ bs, ∀ p ∈ b.2, (pyInt p.1).isOk = true ∧ (pyInt p.2).isOk = true) →
      measLoop (mseq ms) (List.range' j bs.length) aud
        = .ok (bs.foldl mstep aud) := by
  intro bs
  induction bs with
  | nil => intro tl j aud hdrop hgood; simp [measLoop]
  | cons b bt ih =>
      intro tl j aud hdrop hgood
      have hb : ms[j]? = some b := getElem?_of_drop _ _ _ _ (by simpa using hdrop)
      have hstep := measStep_ok_family ms j b aud hb (hgood b (by simp))
      have hnext : ms.drop (j + 1) = bt ++ tl :=
        drop_succ_of_drop _ _ _ _ (by simpa using hdrop)
      have hrec := ih tl (j + 1) (mstep aud b) hnext
        (fun b2 hb2 p hp => hgood b2 (by simp [hb2]) p hp)
      simp only [List.length_cons, List.range'_succ, measLoop, hstep, ok_bind]
      rw [hrec]
      rfl

theorem measLoop_err_family (ms : List (String × List (String × String)))
    (j : Nat) (ear : String) (gpts : List (String × String)) (bf bi : String)
    (rpts : List (String × String))
    (hb : ms[j]? = some (ear, gpts ++ (bf, bi) :: rpts))
    (hgood : ∀ p ∈ gpts, (pyInt p.1).isOk = true ∧ (pyInt p.2).isOk = true)
    (hbad : pyInt bf = .error .valueError ∨
      ((pyInt bf).isOk = true ∧ pyInt bi = .error .valueError)) :
    ∀ (js : List Nat) (aud : Audiogram),
      measLoop (mseq ms) (j :: js) aud = .error .valueError := by
  intro js aud
  simp [measLoop, measStep_err_family ms j ear gpts bf bi rpts aud hb hgood hbad]

theorem measLoop_append (md : DVal) (xs ys : List Nat) (aud : Audiogram) :
    measLoop md (xs ++ ys) aud = measLoop md xs aud >>= measLoop md ys := by
  induction xs generalizing aud with
  | nil => simp [measLoop]
  | cons x xt ih =>
      simp only [List.cons_append, measLoop]
      cases measStep md x aud with
      | error e => simp
      | ok a => simp [ih a]

theorem testStep_tone (ms : List (String × List (String × String)))
    (aud : Audiogram) :
    testStep (mkToneTest (ms.map (fun b => mkMeasured b.1 b.2))) aud
      = measLoop (mseq ms) (List.range ms.length) aud := by
  have h1 : testStep (mkToneTest (ms.map (fun b => mkMeasured b.1 b.2))) aud
      = measLoop (mseq ms) (List.range (DVal.len (mseq ms))) aud := rfl
  rw [h1]
  have h2 : DVal.len (mseq ms) = ms.length := by simp [mseq, DVal.len]
  rw [h2]

theorem testStep_skip (test v : DVal) (aud : Audiogram)
    (hch : tnChain test = .ok v) (hv : isToneStr v = false) :
    testStep test aud = .ok aud := by
  simp [testStep, hch, hv]

theorem nodup_foldl_pstep (qs : List (String × String)) :
    ∀ m : List (Int × Int), (m.map Prod.fst).Nodup →
      ((qs.foldl pstep m).map Prod.fst).Nodup := by
  induction qs with
  | nil => intro m hm; simpa using hm
  | cons q qt ih =>
      intro m hm
      exact ih (pstep m q) (nodup_keys_aset m (pyIntD q.1) (pyIntD q.2) hm)

/-- Claim C5: on a normalized document with exactly one test, named Tone, one
measured block with ear side "Left" and tone points (1000, 20) and
(2000, 25), extraction returns exactly the mapping Left -> (1000 -> 20,
2000 -> 25), and the result holds no "Right" key. -/
theorem extract_left_two_points :
    extract_thresholds
        (mkDoc [mkToneTest [mkMeasured "Left" [("1000", "20"), ("2000", "25")]]])
      = .ok [("Left", [(1000, 20), (2000, 25)])] ∧
    alookup [(("Left" : String), [((1000 : Int), (20 : Int)), (2000, 25)])] "Right"
      = none :=
  ⟨rfl, rfl⟩

/-- Claim C7: a document whose tests all have a TestName text different from
"Tone" extracts to the empty mapping, without error. -/
theorem extract_skips_non_tone_tests (ts : List DVal)
    (h : ∀ t ∈ ts, ∃ v, tnChain t = .ok v ∧ isToneStr v = false) :
    extract_thresholds (mkDoc ts) = .ok [] := by
  rw [extract_mkDoc]
  induction ts with
  | nil => rfl
  | cons t rest ih =>
      obtain ⟨v, hch, hv⟩ := h t (by simp)
      simp only [testLoop, testStep_skip t v [] hch hv, ok_bind]
      exact ih (fun t2 ht2 => h t2 (by simp [ht2]))

theorem extract_skips_non_tone_tests_witness :
    extract_thresholds
        (mkDoc [DVal.node [("TestName", DVal.seq [textNode "QuickSIN"])]])
      = .ok [] := by
  apply extract_skips_non_tone_tests
  intro t ht
  simp only [List.mem_singleton] at ht
  subst ht
  exact ⟨DVal.str "QuickSIN", rfl, rfl⟩

/-- Claim C6: within one Tone test's measured block, a repeated frequency is
mapped (in that ear side's result dictionary) to the threshold of the last
tone point carrying it, and each frequency occurs at most once among the
result's keys. -/
theorem extract_last_write_wins (ear : String) (pts : List (String × String))
    (hp : ∀ p ∈ pts, (pyInt p.1).isOk = true ∧ (pyInt p.2).isOk = true) :
    extract_thresholds (mkDoc [mkToneTest [mkMeasured ear pts]])
      = .ok [(ear, pts.foldl pstep [])] ∧
    (∀ f : Int, alookup (pts.foldl pstep []) f =
      (((pts.map (fun p => (pyIntD p.1, pyIntD p.2))).filter
        (fun q => q.1 == f)).getLast?).map Prod.snd) ∧
    ((pts.foldl pstep []).map Prod.fst).Nodup := by
  refine ⟨?_, ?_, nodup_foldl_pstep pts [] (by simp)⟩
  · rw [extract_mkDoc]
    simp only [testLoop]
    rw [show [mkMeasured ear pts]
        = ([((ear : String), pts)]).map (fun b => mkMeasured b.1 b.2) from rfl]
    rw [testStep_tone [(ear, pts)] []]
    have h2 := measLoop_ok_family [(ear, pts)] [(ear, pts)] [] 0 []
      (by simp)
      (by
        intro b hb2 p hpp
        simp only [List.mem_singleton] at hb2
        subst hb2
        exact hp p hpp)
    simp only [List.range_eq_range', List.length_singleton] at h2 ⊢
    rw [h2]
    simp [testLoop, List.foldl_cons, List.foldl_nil, mstep, aset]
  · intro f
    have hfold : pts.foldl pstep []
        = (pts.map (fun p => (pyIntD p.1, pyIntD p.2))).foldl
            (fun acc q => aset acc q.1 q.2) [] := by
      rw [List.foldl_map]
      rfl
    rw [hfold, alookup_foldl_aset]
    simp [alookup, Option.or_none]

theorem extract_last_write_wins_witness :
    extract_thresholds
        (mkDoc [mkToneTest [mkMeasured "Left" [("1000", "20"), ("1000", "35")]]])
      = .ok [("Left", [(1000, 35)])] := by
  have h := extract_last_write_wins "Left" [("1000", "20"), ("1000", "35")]
    (by decide)
  exact h.1

/-- Claim C1: a normalized document whose (first) Tone test contains a tone
point whose Frequency text does not parse as an integer, or parses while
its IntensityUT text does not, makes extraction raise ValueError (the
spec's ValueFormatError); only the error escapes, never a partial
audiogram. -/
theorem extract_valueError_on_bad_tonepoint
    (goodMs : List (String × List (String × String))) (ear : String)
    (gpts : List (String × String)) (bf bi : String)
    (rpts : List (String × String))
    (restMs : List (String × List (String × String))) (restTests : List DVal)
    (hgoodMs : ∀ b ∈ goodMs, ∀ p ∈ b.2,
      (pyInt p.1).isOk = true ∧ (pyInt p.2).isOk = true)
    (hgood : ∀ p ∈ gpts, (pyInt p.1).isOk = true ∧ (pyInt p.2).isOk = true)
    (hbad : pyInt bf = .error .valueError ∨
      ((pyInt bf).isOk = true ∧ pyInt bi = .error .valueError)) :
    extract_thresholds (mkDoc (mkToneTest
      ((goodMs ++ (ear, gpts ++ (bf, bi) :: rpts) :: restMs).map
        (fun b => mkMeasured b.1 b.2)) :: restTests)) = .error .valueError := by
  rw [extract_mkDoc]
  simp only [testLoop]
  rw [testStep_tone (goodMs ++ (ear, gpts ++ (bf, bi) :: rpts) :: restMs) []]
  have hlen : (goodMs ++ (ear, gpts ++ (bf, bi) :: rpts) :: restMs).length
      = goodMs.length + (restMs.length + 1) := by
    simp [List.length_append, Nat.add_comm]
  have hok := measLoop_ok_family (goodMs ++ (ear, gpts ++ (bf, bi) :: rpts) :: restMs)
    goodMs ((ear, gpts ++ (bf, bi) :: rpts) :: restMs) 0 [] (by simp) hgoodMs
  have hb : (goodMs ++ (ear, gpts ++ (bf, bi) :: rpts) :: restMs)[goodMs.length]?
      = some (ear, gpts ++ (bf, bi) :: rpts) :=
    getElem?_of_drop _ _ _ _ (List.drop_left goodMs _)
  have herr := measLoop_err_family
    (goodMs ++ (ear, gpts ++ (bf, bi) :: rpts) :: restMs)
    goodMs.length ear gpts bf bi rpts hb hgood hbad
    (List.range' (goodMs.length + 1) restMs.length) (goodMs.foldl mstep [])
  rw [List.range_eq_range', hlen, range'_split goodMs.length (restMs.length + 1),
      measLoop_append, hok, ok_bind, List.range'_succ, herr]
  rfl

theorem extract_valueError_on_bad_tonepoint_witness :
    extract_thresholds
        (mkDoc [mkToneTest [mkMeasured "Left" [("1000", "20"), ("abc", "5")]]])
      = .error .valueError := by
  have h := extract_valueError_on_bad_tonepoint [] "Left" [("1000", "20")]
    "abc" "5" [] [] [] (by decide) (by decide) (Or.inl rfl)
  exact h

/-- Claim C2: representative families of normalized inputs in which one expected
key of the extraction path (Session, Test, TestName, Data, RecordedData,
Measured, Tone, Earside, TonePoint) is absent at the first point the
extractor consults it; in each family the extractor raises KeyError (the
spec's StructureMismatch) and returns no result. -/
theorem extract_keyError_on_missing_path :
    (∀ sd : DNode, alookup sd "Session" = none →
      extract_thresholds (DVal.node [("SaData", DVal.node sd)])
        = .error .keyError) ∧
    (∀ (sess0 : DNode) (rest : List DVal), alookup sess0 "Test" = none →
      extract_thresholds (DVal.node [("SaData", DVal.node [("Session",
        DVal.seq (DVal.node sess0 :: rest))])]) = .error .keyError) ∧
    (∀ (t0 : DNode) (rest : List DVal), alookup t0 "TestName" = none →
      extract_thresholds (mkDoc (DVal.node t0 :: rest)) = .error .keyError) ∧
    (∀ (extra : DNode) (rest : List DVal), alookup extra "Data" = none →
      extract_thresholds (mkDoc (DVal.node
        (("TestName", DVal.seq [textNode "Tone"]) :: extra) :: rest))
        = .error .keyError) ∧
    (∀ (dm : DNode) (rest : List DVal), alookup dm "RecordedData" = none →
      extract_thresholds (mkDoc (DVal.node [("TestName", DVal.seq [textNode "Tone"]),
        ("Data", DVal.seq [DVal.node dm])] :: rest)) = .error .keyError) ∧
    (∀ (rm : DNode) (rest : List DVal), alookup rm "Measured" = none →
      extract_thresholds (mkDoc (DVal.node [("TestName", DVal.seq [textNode "Tone"]),
        ("Data", DVal.seq [DVal.node [("RecordedData", DVal.seq [DVal.node rm])]])]
        :: rest)) = .error .keyError) ∧
    (∀ (b0 : DNode) (brest rest : List DVal), alookup b0 "Tone" = none →
      extract_thresholds (mkDoc (mkToneTestD
        (DVal.seq (DVal.node b0 :: brest)) :: rest)) = .error .keyError) ∧
    (∀ (tm : DNode) (brest rest : List DVal), alookup tm "Earside" = none →
      extract_thresholds (mkDoc (mkToneTestD
        (DVal.seq (DVal.node [("Tone", DVal.seq [DVal.node tm])] :: brest)) :: rest))
        = .error .keyError) ∧
    (∀ (ear : String) (extra : DNode) (brest rest : List DVal),
      alookup extra "TonePoint" = none →
      extract_thresholds (mkDoc (mkToneTestD
        (DVal.seq (DVal.node [("Tone", DVal.seq
          [DVal.node (("Earside", DVal.seq [textNode ear]) :: extra)])] :: brest))
        :: rest)) = .error .keyError) := by
  refine ⟨?_, ?_, ?_, ?_, ?_, ?_, ?_, ?_, ?_⟩
  · intro sd h
    simp [extract_thresholds, DVal.getKey, alookup, h]
  · intro sess0 rest h
    simp [extract_thresholds, DVal.getKey, DVal.getIdx, alookup, h]
  · intro t0 rest h
    rw [extract_mkDoc]
    simp [DVal.getKey, DVal.getIdx, alookup, testLoop, testStep, tnChain, h]
  · intro extra rest h
    rw [extract_mkDoc]
    simp [DVal.getKey, DVal.getIdx, alookup, testLoop, testStep, tnChain,
          textNode, isToneStr, h]
  · intro dm rest h
    rw [extract_mkDoc]
    simp [DVal.getKey, DVal.getIdx, alookup, testLoop, testStep, tnChain,
          textNode, isToneStr, h]
  · intro rm rest h
    rw [extract_mkDoc]
    simp [DVal.getKey, DVal.getIdx, alookup, testLoop, testStep, tnChain,
          textNode, isToneStr, h]
  · intro b0 brest rest h
    rw [extract_mkDoc]
    simp [DVal.getKey, DVal.getIdx, alookup, testLoop, testStep, tnChain,
          mkToneTestD, textNode, isToneStr, DVal.len, List.range_eq_range',
          List.range'_succ, measLoop, measStep, mdTone0, h]
  · intro tm brest rest h
    rw [extract_mkDoc]
    simp [DVal.getKey, DVal.getIdx, alookup, testLoop, testStep, tnChain,
          mkToneTestD, textNode, isToneStr, DVal.len, List.range_eq_range',
          List.range'_succ, measLoop, measStep, mdTone0, h]
  · intro ear extra brest rest h
    rw [extract_mkDoc]
    simp [DVal.getKey, DVal.getIdx, alookup, testLoop, testStep, tnChain,
          mkToneTestD, textNode, isToneStr, DVal.len, List.range_eq_range',
          List.range'_succ, measLoop, measStep, mdTone0, DVal.asKey, h]

theorem extract_keyError_on_missing_path_witness :
    extract_thresholds (DVal.node [("SaData", DVal.node [])]) = .error .keyError ∧
    extract_thresholds (DVal.node [("SaData", DVal.node [("Session",
      DVal.seq [DVal.node []])])]) = .error .keyError ∧
    extract_thresholds (mkDoc [DVal.node []]) = .error .keyError ∧
    extract_thresholds (mkDoc [DVal.node
      [("TestName", DVal.seq [textNode "Tone"])]]) = .error .keyError ∧
    extract_thresholds (mkDoc [DVal.node [("TestName", DVal.seq [textNode "Tone"]),
      ("Data", DVal.seq [DVal.node []])]]) = .error .keyError ∧
    extract_thresholds (mkDoc [DVal.node [("TestName", DVal.seq [textNode "Tone"]),
      ("Data", DVal.seq [DVal.node [("RecordedData", DVal.seq [DVal.node []])]])]])
      = .error .keyError ∧
    extract_thresholds (mkDoc [mkToneTestD (DVal.seq [DVal.node []])])
      = .error .keyError ∧
    extract_thresholds (mkDoc [mkToneTestD
      (DVal.seq [DVal.node [("Tone", DVal.seq [DVal.node []])]])])
      = .error .keyError ∧
    extract_thresholds (mkDoc [mkToneTestD
      (DVal.seq [DVal.node [("Tone", DVal.seq
        [DVal.node [("Earside", DVal.seq [textNode "Left"])]])]])])
      = .error .keyError := by
  refine ⟨extract_keyError_on_missing_path.1 [] rfl,
    extract_keyError_on_missing_path.2.1 [] [] rfl,
    extract_keyError_on_missing_path.2.2.1 [] [] rfl,
    extract_keyError_on_missing_path.2.2.2.1 [] [] rfl,
    extract_keyError_on_missing_path.2.2.2.2.1 [] [] rfl,
    extract_keyError_on_missing_path.2.2.2.2.2.1 [] [] rfl,
    extract_keyError_on_missing_path.2.2.2.2.2.2.1 [] [] [] rfl,
    extract_keyError_on_missing_path.2.2.2.2.2.2.2.1 [] [] [] rfl,
    extract_keyError_on_missing_path.2.2.2.2.2.2.2.2 "Left" [] [] [] rfl⟩

theorem dictifyKids_nil (d : DNode) : dictifyKids d [] = .ok (d, []) := by
  rw [dictifyKids]

theorem dictifyKids_cons (d : DNode) (xtag : String)
    (xattrib : List (String × String)) (xtext : Option String)
    (xchildren xs : List Element) :
    dictifyKids d (Element.mk xtag xattrib xtext xchildren :: xs) =
      match pyAppendSlot (alookup d (stripTag xtag)) with
      | .error er => .error er
      | .ok l =>
          match dictifyKids (baseDict xattrib xtext) xchildren with
          | .error er => .error er
          | .ok (xd, xcs) =>
              match dictifyKids
                  (aset d (stripTag xtag) (DVal.seq (l ++ [DVal.node xd]))) xs with
              | .error er => .error er
              | .ok (d2, cs2) =>
                  .ok (d2, Element.mk (stripTag xtag) xattrib xtext xcs :: cs2) := by
  rw [dictifyKids]

theorem dictifyKids_lookup (cs : List Element) : ∀ (d d2 : DNode) (cs2 : List Element),
    dictifyKids d cs = .ok (d2, cs2) → ∀ k : String,
    alookup d2 k
      = collapseVal (alookup d k) (cs.filter (fun c => stripTag c.tag == k)) := by
  induction cs with
  | nil =>
      intro d d2 cs2 h k
      rw [dictifyKids_nil] at h
      simp only [Except.ok.injEq, Prod.mk.injEq] at h
      rw [← h.1]
      cases hv : alookup d k with
      | none => simp [collapseVal]
      | some v => cases v <;> simp [collapseVal]
  | cons x xs ih =>
      obtain ⟨xtag, xattrib, xtext, xchildren⟩ := x
      intro d d2 cs2 h k
      rw [dictifyKids_cons] at h
      cases hslot : pyAppendSlot (alookup d (stripTag xtag)) with
      | error er => simp only [hslot] at h; exact absurd h (by simp)
      | ok l =>
          simp only [hslot] at h
          cases hx : dictifyKids (baseDict xattrib xtext) xchildren with
          | error er => simp only [hx] at h; exact absurd h (by simp)
          | ok pr =>
              obtain ⟨xd, xcs⟩ := pr
              simp only [hx] at h
              cases hrest : dictifyKids
                  (aset d (stripTag xtag) (DVal.seq (l ++ [DVal.node xd]))) xs with
              | error er => simp only [hrest] at h; exact absurd h (by simp)
              | ok pr2 =>
                  obtain ⟨d3, cs3⟩ := pr2
                  simp only [hrest, Except.ok.injEq, Prod.mk.injEq] at h
                  have hIH := ih _ d3 cs3 hrest k
                  rw [h.1] at hIH
                  have hdn : dnodeOf (Element.mk xtag xattrib xtext xchildren) = xd := by
                    simp [dnodeOf, hx]
                  by_cases hk : stripTag xtag = k
                  · subst hk
                    rw [alookup_aset_self] at hIH
                    rw [hIH]
                    cases hcur : alookup d (stripTag xtag) with
                    | none =>
                        rw [hcur] at hslot
                        simp only [pyAppendSlot, Except.ok.injEq] at hslot
                        subst hslot
                        simp [collapseVal, List.filter_cons, hdn]
                    | some v =>
                        rw [hcur] at hslot
                        cases v with
                        | str s => simp [pyAppendSlot] at hslot
                        | node n => simp [pyAppendSlot] at hslot
                        | seq l0 =>
                            simp only [pyAppendSlot, Except.ok.injEq] at hslot
                            subst hslot
                            simp [collapseVal, List.filter_cons, hdn]
                  · rw [alookup_aset_ne _ _ _ _ hk] at hIH
                    rw [hIH]
                    have hbk : (stripTag xtag == k) = false := by simp [hk]
                    simp [List.filter_cons, hbk]

theorem stripKids_nil : stripKids [] = [] := by rw [stripKids]

theorem stripKids_cons (xtag : String) (xattrib : List (String × String))
    (xtext : Option String) (xchildren xs : List Element) :
    stripKids (Element.mk xtag xattrib xtext xchildren :: xs)
      = Element.mk (stripTag xtag) xattrib xtext (stripKids xchildren)
          :: stripKids xs := by
  rw [stripKids]

theorem dictifyKids_post : ∀ (cs : List Element) (d d2 : DNode) (cs2 : List Element),
    dictifyKids d cs = .ok (d2, cs2) → cs2 = stripKids cs
  | [], d, d2, cs2, h => by
      rw [dictifyKids_nil] at h
      simp only [Except.ok.injEq, Prod.mk.injEq] at h
      rw [← h.2, stripKids_nil]
  | ⟨xtag, xattrib, xtext, xchildren⟩ :: xs, d, d2, cs2, h => by
      rw [dictifyKids_cons] at h
      cases hslot : pyAppendSlot (alookup d (stripTag xtag)) with
      | error er => simp only [hslot] at h; exact absurd h (by simp)
      | ok l =>
          simp only [hslot] at h
          cases hx : dictifyKids (baseDict xattrib xtext) xchildren with
          | error er => simp only [hx] at h; exact absurd h (by simp)
          | ok pr =>
              obtain ⟨xd, xcs⟩ := pr
              simp only [hx] at h
              cases hrest : dictifyKids
                  (aset d (stripTag xtag) (DVal.seq (l ++ [DVal.node xd]))) xs with
              | error er => simp only [hrest] at h; exact absurd h (by simp)
              | ok pr2 =>
                  obtain ⟨d3, cs3⟩ := pr2
                  simp only [hrest, Except.ok.injEq, Prod.mk.injEq] at h
                  have h1 := dictifyKids_post xchildren (baseDict xattrib xtext) xd xcs hx
                  have h2 := dictifyKids_post xs
                    (aset d (stripTag xtag) (DVal.seq (l ++ [DVal.node xd]))) d3 cs3 hrest
                  rw [← h.2, stripKids_cons, h1, h2]

theorem attrib_fold_lookup (a : List (String × String)) :
    ∀ (acc : List (String × DVal)) (k : String) (v : DVal),
    alookup (a.foldl (fun d kv => aset d kv.1 (DVal.str kv.2)) acc) k = some v →
    alookup acc k = some v ∨ ∃ kv ∈ a, kv.1 = k := by
  induction a with
  | nil => intro acc k v h; exact Or.inl h
  | cons kv rest ih =>
      intro acc k v h
      rw [List.foldl_cons] at h
      rcases ih _ k v h with h2 | h2
      · by_cases hk : kv.1 = k
        · exact Or.inr ⟨kv, by simp, hk⟩
        · rw [alookup_aset_ne _ _ _ _ hk] at h2
          exact Or.inl h2
      · obtain ⟨kv2, hm, he⟩ := h2
        exact Or.inr ⟨kv2, by simp [hm], he⟩

theorem attrib_fold_str (a : List (String × String)) :
    ∀ (acc : List (String × DVal)),
    (∀ k2 v2, alookup acc k2 = some v2 → ∃ s, v2 = DVal.str s) →
    ∀ k v,
    alookup (a.foldl (fun d kv => aset d kv.1 (DVal.str kv.2)) acc) k = some v →
    ∃ s, v = DVal.str s := by
  induction a with
  | nil => intro acc hacc k v h; exact hacc k v h
  | cons kv rest ih =>
      intro acc hacc k v h
      rw [List.foldl_cons] at h
      refine ih _ ?_ k v h
      intro k2 v2 h2
      by_cases hk : kv.1 = k2
      · subst hk
        rw [alookup_aset_self] at h2
        exact ⟨kv.2, (Option.some.inj h2).symm⟩
      · rw [alookup_aset_ne _ _ _ _ hk] at h2
        exact hacc k2 v2 h2

theorem baseDict_lookup_shape (a : List (String × String)) (text : Option String)
    (k : String) (v : DVal) (h : alookup (baseDict a text) k = some v) :
    ((∃ kv ∈ a, kv.1 = k) ∨ (truthyText text = true ∧ k = "_text")) ∧
      ∃ s, v = DVal.str s := by
  unfold baseDict at h
  cases htr : truthyText text with
  | false =>
      rw [htr] at h
      simp only [Bool.false_eq_true, if_false] at h
      refine ⟨?_, attrib_fold_str a [] (by intro k2 v2 h2; simp [alookup] at h2) k v h⟩
      rcases attrib_fold_lookup a [] k v h with h2 | h2
      · simp [alookup] at h2
      · exact Or.inl h2
  | true =>
      rw [htr] at h
      simp only [if_true] at h
      by_cases hk : k = "_text"
      · subst hk
        rw [alookup_aset_self] at h
        exact ⟨Or.inr ⟨rfl, rfl⟩, ⟨text.getD "", (Option.some.inj h).symm⟩⟩
      · rw [alookup_aset_ne _ _ _ _ (fun he => hk he.symm)] at h
        refine ⟨?_, attrib_fold_str a [] (by intro k2 v2 h2; simp [alookup] at h2) k v h⟩
        rcases attrib_fold_lookup a [] k v h with h2 | h2
        · simp [alookup] at h2
        · exact Or.inl h2

theorem noClashKids_nil (a : List (String × String)) (text : Option String) :
    noClashKids a text [] = true := by rw [noClashKids]

theorem noClashKids_cons (a : List (String × String)) (text : Option String)
    (xtag : String) (xattrib : List (String × String)) (xtext : Option String)
    (xchildren xs : List Element) :
    noClashKids a text (Element.mk xtag xattrib xtext xchildren :: xs)
      = (a.all (fun kv => !(kv.1 == stripTag xtag)) &&
         (!truthyText text || !(stripTag xtag == "_text")) &&
         noClashKids xattrib xtext xchildren &&
         noClashKids a text xs) := by
  rw [noClashKids]

theorem noClashKids_mem : ∀ (cs : List Element) (a : List (String × String))
    (text : Option String), noClashKids a text cs = true → ∀ c ∈ cs,
      (∀ kv ∈ a, ¬(kv.1 = stripTag c.tag)) ∧
      (truthyText text = true → ¬(stripTag c.tag = "_text")) ∧
      noClash c = true := by
  intro cs
  induction cs with
  | nil => intro a text h c hc; simp at hc
  | cons x xs ih =>
      obtain ⟨xtag, xattrib, xtext, xchildren⟩ := x
      intro a text h c hc
      rw [noClashKids_cons] at h
      simp only [Bool.and_eq_true] at h
      obtain ⟨⟨⟨h1, h2⟩, h3⟩, h4⟩ := h
      rcases List.mem_cons.1 hc with rfl | hc2
      · refine ⟨?_, ?_, h3⟩
        · intro kv hkv he
          have := List.all_eq_true.1 h1 kv hkv
          simp [he] at this
        · intro htr he
          rw [htr] at h2
          simp [he] at h2
      · exact ih a text h4 c hc2

theorem dictifyKids_ok : ∀ (cs : List Element) (a : List (String × String))
    (text : Option String) (d : DNode),
    noClashKids a text cs = true →
    (∀ c ∈ cs, ∀ v, alookup d (stripTag c.tag) = some v → ∃ l, v = DVal.seq l) →
    ∃ d2 cs2, dictifyKids d cs = .ok (d2, cs2)
  | [], a, text, d, hnc, hinv => ⟨d, [], dictifyKids_nil d⟩
  | ⟨xtag, xattrib, xtext, xchildren⟩ :: xs, a, text, d, hnc, hinv => by
      rw [noClashKids_cons] at hnc
      simp only [Bool.and_eq_true] at hnc
      obtain ⟨⟨⟨h1, h2⟩, h3⟩, h4⟩ := hnc
      have hinvx : ∀ c ∈ xchildren, ∀ v,
          alookup (baseDict xattrib xtext) (stripTag c.tag) = some v →
          ∃ l, v = DVal.seq l := by
        intro c hc v hv
        have hshape := (baseDict_lookup_shape xattrib xtext _ _ hv).1
        have hmem := noClashKids_mem xchildren xattrib xtext h3 c hc
        rcases hshape with ⟨kv, hkv, he⟩ | ⟨htr, he⟩
        · exact absurd he (hmem.1 kv hkv)
        · exact absurd he (hmem.2.1 htr)
      obtain ⟨xd, xcs, hx⟩ :=
        dictifyKids_ok xchildren xattrib xtext (baseDict xattrib xtext) h3 hinvx
      have hinvxs : ∀ c ∈ xs, ∀ v,
          alookup (aset d (stripTag xtag) (DVal.seq [DVal.node xd]))
            (stripTag c.tag) = some v → ∃ l, v = DVal.seq l := by
        intro c hc v hv
        by_cases he : stripTag xtag = stripTag c.tag
        · rw [← he, alookup_aset_self] at hv
          exact ⟨[DVal.node xd], (Option.some.inj hv).symm⟩
        · rw [alookup_aset_ne _ _ _ _ he] at hv
          exact hinv c (by simp [hc]) v hv
      cases hcur : alookup d (stripTag xtag) with
      | none =>
          obtain ⟨d3, cs3, hrest⟩ := dictifyKids_ok xs a text
            (aset d (stripTag xtag) (DVal.seq [DVal.node xd])) h4 hinvxs
          refine ⟨d3, Element.mk (stripTag xtag) xattrib xtext xcs :: cs3, ?_⟩
          rw [dictifyKids_cons, hcur]
          simp only [pyAppendSlot, hx, List.nil_append, hrest]
      | some v =>
          obtain ⟨l0, rfl⟩ := hinv ⟨xtag, xattrib, xtext, xchildren⟩ (by simp) v hcur
          have hinvxs2 : ∀ c ∈ xs, ∀ v,
              alookup (aset d (stripTag xtag) (DVal.seq (l0 ++ [DVal.node xd])))
                (stripTag c.tag) = some v → ∃ l, v = DVal.seq l := by
            intro c hc v hv
            by_cases he : stripTag xtag = stripTag c.tag
            · rw [← he, alookup_aset_self] at hv
              exact ⟨l0 ++ [DVal.node xd], (Option.some.inj hv).symm⟩
            · rw [alookup_aset_ne _ _ _ _ he] at hv
              exact hinv c (by simp [hc]) v hv
          obtain ⟨d3, cs3, hrest⟩ := dictifyKids_ok xs a text
            (aset d (stripTag xtag) (DVal.seq (l0 ++ [DVal.node xd]))) h4 hinvxs2
          refine ⟨d3, Element.mk (stripTag xtag) xattrib xtext xcs :: cs3, ?_⟩
          rw [dictifyKids_cons, hcur]
          simp only [pyAppendSlot, hx, hrest]

theorem lastIdxOf_none (c : Char) : ∀ (cs : List Char), c ∉ cs →
    lastIdxOf c cs = none := by
  intro cs
  induction cs with
  | nil => intro h; rfl
  | cons a rest ih =>
      intro h
      have ha : ¬(a = c) := fun he => h (by simp [he])
      rw [lastIdxOf, ih (fun hm => h (by simp [hm]))]
      simp [ha]

theorem lastIdxOf_append (u v2 : List Char) (hu : '}' ∉ u) (hv : '}' ∉ v2) :
    lastIdxOf '}' (u ++ '}' :: v2) = some u.length := by
  induction u with
  | nil =>
      rw [List.nil_append, lastIdxOf, lastIdxOf_none '}' v2 hv]
      simp
  | cons a rest ih =>
      have ha : ¬(a = '}') := fun he => hu (by simp [he])
      rw [List.cons_append, lastIdxOf, ih (fun hm => hu (by simp [hm]))]
      simp

theorem takeWhile_no_nl (u v2 : List Char) (hu : '\n' ∉ u) :
    (u ++ '}' :: v2).takeWhile (fun c => c ≠ '\n')
      = u ++ '}' :: v2.takeWhile (fun c => c ≠ '\n') := by
  induction u with
  | nil => simp [List.takeWhile_cons]
  | cons a rest ih =>
      have ha : ¬(a = '\n') := fun he => hu (by simp [he])
      rw [List.cons_append, List.takeWhile_cons, List.cons_append,
          ← ih (fun hm => hu (by simp [hm]))]
      simp [ha]

theorem mem_of_mem_takeWhile {c : Char} {p : Char → Bool} :
    ∀ {l : List Char}, c ∈ l.takeWhile p → c ∈ l := by
  intro l
  induction l with
  | nil => intro h; simp [List.takeWhile] at h
  | cons a rest ih =>
      intro h
      rw [List.takeWhile_cons] at h
      by_cases hp : p a = true
      · rw [if_pos hp] at h
        rcases List.mem_cons.1 h with rfl | h2
        · simp
        · simp [ih h2]
      · rw [if_neg hp] at h
        simp at h

theorem subAllF_no_brace : ∀ (n : Nat) (cs : List Char), '{' ∉ cs →
    subAllF n cs = cs := by
  intro n
  induction n with
  | zero => intro cs h; cases cs <;> rfl
  | succ n2 ih =>
      intro cs h
      cases cs with
      | nil => rfl
      | cons a rest =>
          have ha : ¬(a = '{') := fun he => h (by simp [he])
          rw [subAllF]
          simp [ha, ih rest (fun hm => h (by simp [hm]))]

theorem subAllF_strip (n : Nat) (u l : List Char)
    (hu1 : '}' ∉ u) (hu2 : '\n' ∉ u) (hl1 : '{' ∉ l) (hl2 : '}' ∉ l)
    (hn : 1 ≤ n) :
    subAllF n ('{' :: (u ++ '}' :: l)) = l := by
  cases n with
  | zero => omega
  | succ n2 =>
      rw [subAllF]
      have htw : (u ++ '}' :: l).takeWhile (fun c => c ≠ '\n')
          = u ++ '}' :: l.takeWhile (fun c => c ≠ '\n') := takeWhile_no_nl u l hu2
      have hli : lastIdxOf '}' (u ++ '}' :: l.takeWhile (fun c => c ≠ '\n'))
          = some u.length :=
        lastIdxOf_append u _ hu1 (fun hm => hl2 (mem_of_mem_takeWhile hm))
      rw [if_pos rfl, htw, hli]
      have hdrop : (u ++ '}' :: l).drop (u.length + 1) = l := by
        have hsplit : u ++ '}' :: l = (u ++ ['}']) ++ l := by simp
        rw [hsplit, show u.length + 1 = (u ++ ['}']).length by simp,
            List.drop_left]
      show subAllF n2 ((u ++ '}' :: l).drop (u.length + 1)) = l
      rw [hdrop, subAllF_no_brace n2 l hl1]

theorem stripTag_no_brace (s : String) (h : '{' ∉ s.data) : stripTag s = s := by
  rw [stripTag, subAllF_no_brace _ _ h]

theorem stripTag_prefix_strip (u l : String) (hu1 : '}' ∉ u.data)
    (hu2 : '\n' ∉ u.data) (hl1 : '{' ∉ l.data) (hl2 : '}' ∉ l.data) :
    stripTag ("\x7b" ++ u ++ "\x7d" ++ l) = l := by
  have hdata : ("\x7b" ++ u ++ "\x7d" ++ l).data
      = '{' :: (u.data ++ '}' :: l.data) := by
    simp [String.data_append]
  rw [stripTag, hdata]
  rw [subAllF_strip _ u.data l.data hu1 hu2 hl1 hl2 (by simp)]

theorem stripTag_lit_a : stripTag "a" = "a" := rfl

theorem stripTag_lit_b : stripTag "b" = "b" := rfl

theorem stripTag_lit_c : stripTag "c" = "c" := rfl

theorem stripTag_lit_root : stripTag "root" = "root" := rfl

theorem stripTag_lit_Test : stripTag "Test" = "Test" := rfl

theorem stripTag_lit_nsa : stripTag "\x7bns\x7da" = "a" := rfl

theorem collapseVal_str (s : String) (f : List Element) :
    collapseVal (some (DVal.str s)) f = some (DVal.str s) := by
  cases f <;> rfl

/-- Claim C9: the mapping `dictify` returns has exactly one top-level key: the
root tag with a leading brace-wrapped namespace removed, or the root tag
itself when the tag holds no brace. -/
theorem dictify_root_single_key (e : Element) (p : DNode × Element)
    (h : dictify e = .ok p) :
    p.1.length = 1 ∧
    ('{' ∉ e.tag.data → p.1.map Prod.fst = [e.tag]) ∧
    (∀ u l : String, e.tag = "\x7b" ++ u ++ "\x7d" ++ l → '}' ∉ u.data →
      '\n' ∉ u.data → '{' ∉ l.data → '}' ∉ l.data → p.1.map Prod.fst = [l]) := by
  unfold dictify at h
  cases hk : dictifyKids (baseDict e.attrib e.text) e.children with
  | error er => simp only [hk] at h; exact absurd h (by simp)
  | ok pr =>
      obtain ⟨d, cs⟩ := pr
      simp only [hk] at h
      have hp : p.1 = [(stripTag e.tag, DVal.node d)] := by
        rw [← Except.ok.inj h]
      refine ⟨by simp [hp], ?_, ?_⟩
      · intro hbr
        rw [hp]
        simp [stripTag_no_brace e.tag hbr]
      · intro u l htag hu1 hu2 hl1 hl2
        rw [hp]
        simp only [List.map_cons, List.map_nil]
        rw [htag, stripTag_prefix_strip u l hu1 hu2 hl1 hl2]

theorem dictify_root_single_key_witness :
    ([(stripTag "\x7bns\x7dSaData", DVal.node [])] : DNode).map Prod.fst
      = ["SaData"] := by
  have hd : dictify (Element.mk "\x7bns\x7dSaData" [] none [])
      = .ok ([(stripTag "\x7bns\x7dSaData", DVal.node [])],
             Element.mk "\x7bns\x7dSaData" [] none []) := by
    simp [dictify, dictifyKids_nil, baseDict, truthyText]
  have h := dictify_root_single_key (Element.mk "\x7bns\x7dSaData" [] none [])
    ([(stripTag "\x7bns\x7dSaData", DVal.node [])],
     Element.mk "\x7bns\x7dSaData" [] none []) hd
  exact h.2.2 "ns" "SaData" rfl (by decide) (by decide) (by decide) (by decide)

/-- Claim C8: after the child loop of `dictify`, a key that the attributes and
text of the element do not bind is mapped to the ordered sequence of the
normalized children whose stripped tag equals it (document order), and is
absent when no child carries it; in particular two children tagged `Test`
collapse into one two-element sequence under key `Test`. -/
theorem dictify_collapses (e : Element) (d2 : DNode) (cs2 : List Element)
    (h : dictifyKids (baseDict e.attrib e.text) e.children = .ok (d2, cs2))
    (k : String) (hk : alookup (baseDict e.attrib e.text) k = none) :
    alookup d2 k =
      match e.children.filter (fun c => stripTag c.tag == k) with
      | [] => none
      | f => some (DVal.seq (f.map (fun c => DVal.node (dnodeOf c)))) := by
  have hlk := dictifyKids_lookup e.children _ d2 cs2 h k
  rw [hk] at hlk
  rw [hlk]
  cases e.children.filter (fun c => stripTag c.tag == k) with
  | nil => rfl
  | cons f fs => rfl

theorem dnodeOf_eq (e : Element) (d : DNode) (cs : List Element)
    (h : dictifyKids (baseDict e.attrib e.text) e.children = .ok (d, cs)) :
    dnodeOf e = d := by
  simp [dnodeOf, h]

theorem dictify_collapses_witness :
    alookup (dnodeOf (Element.mk "SaData" [] none
        [Element.mk "Test" [] none [], Element.mk "Test" [] none []])) "Test"
      = some (DVal.seq [DVal.node [], DVal.node []]) := by
  have hdk : dictifyKids (baseDict ([] : List (String × String)) none)
      [Element.mk "Test" [] none [], Element.mk "Test" [] none []]
      = .ok ([("Test", DVal.seq [DVal.node [], DVal.node []])],
             [Element.mk "Test" [] none [], Element.mk "Test" [] none []]) := by
    rw [dictifyKids_cons]
    simp only [show pyAppendSlot (alookup (baseDict ([] : List (String × String)) none)
        (stripTag "Test")) = Except.ok [] from rfl, dictifyKids_nil]
    rw [dictifyKids_cons]
    simp only [show pyAppendSlot (alookup
        (aset (baseDict ([] : List (String × String)) none) (stripTag "Test")
          (DVal.seq ([] ++ [DVal.node (baseDict ([] : List (String × String)) none)])))
        (stripTag "Test")) = Except.ok [DVal.node (baseDict ([] : List (String × String)) none)]
        from rfl, dictifyKids_nil]
    rfl
  have hdnT : dnodeOf (Element.mk "Test" [] none []) = [] :=
    (dnodeOf_eq (Element.mk "Test" [] none []) (baseDict [] none) []
      (dictifyKids_nil (baseDict [] none))).trans rfl
  have hdn : dnodeOf (Element.mk "SaData" [] none
      [Element.mk "Test" [] none [], Element.mk "Test" [] none []])
      = [("Test", DVal.seq [DVal.node [], DVal.node []])] :=
    dnodeOf_eq (Element.mk "SaData" [] none
        [Element.mk "Test" [] none [], Element.mk "Test" [] none []])
      [("Test", DVal.seq [DVal.node [], DVal.node []])]
      [Element.mk "Test" [] none [], Element.mk "Test" [] none []] hdk
  have h := dictify_collapses
    (Element.mk "SaData" [] none
      [Element.mk "Test" [] none [], Element.mk "Test" [] none []])
    [("Test", DVal.seq [DVal.node [], DVal.node []])]
    [Element.mk "Test" [] none [], Element.mk "Test" [] none []] hdk "Test" rfl
  rw [hdn, h]
  rw [show (Element.mk "SaData" [] none
      [Element.mk "Test" [] none [], Element.mk "Test" [] none []]).children.filter
        (fun c => stripTag c.tag == "Test")
      = [Element.mk "Test" [] none [], Element.mk "Test" [] none []] from rfl]
  simp only [List.map_cons, List.map_nil, hdnT]

/-- Claim C10: when an element carries an XML attribute literally named `_text`
and also has nonempty text, the normalized node maps `_text` to the text
content: the attribute value is overwritten and discarded. -/
theorem dictify_text_overwrites_attr (e : Element) (d2 : DNode)
    (cs2 : List Element) (v t : String) (hattr : ("_text", v) ∈ e.attrib)
    (htext : e.text = some t) (ht : ¬(t = ""))
    (h : dictifyKids (baseDict e.attrib e.text) e.children = .ok (d2, cs2)) :
    alookup d2 "_text" = some (DVal.str t) := by
  have hbase : alookup (baseDict e.attrib e.text) "_text"
      = some (DVal.str t) := by
    simp [baseDict, truthyText, htext, ht, alookup_aset_self]
  have hlk := dictifyKids_lookup e.children _ d2 cs2 h "_text"
  rw [hbase, collapseVal_str] at hlk
  exact hlk

theorem dictify_text_overwrites_attr_witness :
    alookup (baseDict [("_text", "attrval")] (some "body")) "_text"
      = some (DVal.str "body") :=
  dictify_text_overwrites_attr
    (Element.mk "r" [("_text", "attrval")] (some "body") [])
    (baseDict [("_text", "attrval")] (some "body")) [] "attrval" "body"
    (by simp) rfl (by decide) (dictifyKids_nil _)

/-- Claim C3, counterexample: `dictify` is not total on well-formed trees: when
an element's attribute name coincides with a child's stripped tag, the
source line `d[x.tag].append(...)` calls `.append` on a string and raises
AttributeError. -/
theorem dictify_fails_on_attr_child_clash_cex :
    dictify (Element.mk "r" [("a", "v")] none [Element.mk "a" [] none []])
      = .error .attributeError := by
  simp [dictify, dictifyKids_cons, baseDict, truthyText, aset, alookup,
        stripTag_lit_a, pyAppendSlot]

/-- Claim C3, amended: `dictify` is deterministic and total on every well-formed
element tree in which no element has a child whose stripped tag collides
with one of the element's attribute names, or with `_text` when the
element has nonempty text. -/
theorem dictify_total_without_clash (e : Element) (h : noClash e = true) :
    ∃ p, dictify e = .ok p := by
  have hinv : ∀ c ∈ e.children, ∀ v,
      alookup (baseDict e.attrib e.text) (stripTag c.tag) = some v →
      ∃ l, v = DVal.seq l := by
    intro c hc v hv
    have hshape := (baseDict_lookup_shape e.attrib e.text _ _ hv).1
    have hmem := noClashKids_mem e.children e.attrib e.text h c hc
    rcases hshape with ⟨kv, hkv, he⟩ | ⟨htr, he⟩
    · exact absurd he (hmem.1 kv hkv)
    · exact absurd he (hmem.2.1 htr)
  obtain ⟨d2, cs2, hk⟩ := dictifyKids_ok e.children e.attrib e.text
    (baseDict e.attrib e.text) h hinv
  refine ⟨([(stripTag e.tag, DVal.node d2)], Element.mk e.tag e.attrib e.text cs2), ?_⟩
  simp only [dictify, hk]

theorem dictify_total_without_clash_witness :
    ∃ p, dictify (Element.mk "r" [("a", "v")] (some "x")
      [Element.mk "b" [] none [Element.mk "c" [] none []]]) = .ok p := by
  apply dictify_total_without_clash
  simp [noClash, noClashKids_cons, noClashKids_nil, truthyText,
        stripTag_lit_b, stripTag_lit_c]

/-- Claim C4, counterexample: `dictify` is not a pure transform of the input
tree: line 33 of the source rewrites each child's tag in place, so after
the call a namespaced child tag has changed. -/
theorem dictify_mutates_input_cex :
    dictify (Element.mk "root" [] none [Element.mk "\x7bns\x7da" [] none []])
      = .ok ([("root", DVal.node [("a", DVal.seq [DVal.node []])])],
             Element.mk "root" [] none [Element.mk "a" [] none []]) ∧
    Element.mk "a" ([] : List (String × String)) (none : Option String)
        ([] : List Element)
      ≠ Element.mk "\x7bns\x7da" [] none [] := by
  constructor
  · simp [dictify, dictifyKids_cons, dictifyKids_nil, baseDict, truthyText,
          aset, alookup, pyAppendSlot, stripTag_lit_nsa, stripTag_lit_root]
  · intro h
    injection h with h1 h2 h3 h4
    exact absurd h1 (by decide)

/-- Claim C4, amended: the post-state of the input tree after a successful
`dictify` call is the input with exactly the namespace-stripping tag
mutation applied to every non-root element, once each; the root tag and
all attributes, text content and tree structure are unchanged. -/
theorem dictify_poststate_strips_child_tags (e : Element) (d : DNode)
    (e2 : Element) (h : dictify e = .ok (d, e2)) :
    e2 = Element.mk e.tag e.attrib e.text (stripKids e.children) := by
  unfold dictify at h
  cases hk : dictifyKids (baseDict e.attrib e.text) e.children with
  | error er => simp only [hk] at h; exact absurd h (by simp)
  | ok pr =>
      obtain ⟨d2, cs2⟩ := pr
      simp only [hk, Except.ok.injEq, Prod.mk.injEq] at h
      rw [← h.2, dictifyKids_post e.children _ d2 cs2 hk]

theorem dictify_poststate_strips_child_tags_witness :
    Element.mk "root" [] none [Element.mk "a" [] none []]
      = Element.mk "root" [] none
          (stripKids [Element.mk "\x7bns\x7da" [] none []]) := by
  have hd : dictify (Element.mk "root" [] none
      [Element.mk "\x7bns\x7da" [] none []])
      = .ok ([("root", DVal.node [("a", DVal.seq [DVal.node []])])],
             Element.mk "root" [] none [Element.mk "a" [] none []]) := by
    simp [dictify, dictifyKids_cons, dictifyKids_nil, baseDict, truthyText,
          aset, alookup, pyAppendSlot, stripTag_lit_nsa, stripTag_lit_root]
  exact dictify_poststate_strips_child_tags
    (Element.mk "root" [] none [Element.mk "\x7bns\x7da" [] none []])
    [("root", DVal.node [("a", DVal.seq [DVal.node []])])]
    (Element.mk "root" [] none [Element.mk "a" [] none []]) hd
